import Mathlib

/-!
Shallow embedding of the exclusion-rule engine of `src/backup/__init__.py`
(class `BackupManager` plus the module-level persistence helpers).

Paths and patterns are `List Char` (a Python `str`).  The Python code
compiles patterns to `re` regular expressions; the regexes it actually
builds use only the constructs literal character, `[^/]*`, `.*` / `.*?`,
the anchors `^` and `$`, and the optional tail group `(/.*)?`, so they are
embedded as a small AST (`CompiledRegex`) with an executable matcher.
Python's newline special cases are preserved: `.` matches any character
except `'\n'`, `[^/]` matches any character except `'/'` (including
`'\n'`), and `$` holds at the end of the string or just before a final
`'\n'`.  The embedding interprets every pattern character other than `*`
literally (the code escapes `.`, and `*` becomes `[^/]*`); the *matching*
theorems are therefore stated for patterns whose characters are all
`plainChar` (no unescaped `re` metacharacters), carried as a hypothesis.
The `re.compile` call inside `add_exclusion_rule` can itself raise
`re.error` on a malformed generated regex (for example pattern `a(` gives
`^a($`): this error path is modelled by the syntax checker `regex_wf`, a
state machine over the generated regex body covering groups, character
classes (with the literal-first-`]` rule and range validity), quantifier
placement (including lazy `*?` and possessive `*+` modifiers), alternation
and anchors.  Its verdict was checked against CPython 3.11 `re.compile`
on every validator-accepted pattern of length ≤ 5 over the metacharacter
alphabet and on hundreds of thousands of longer random patterns.  Numeric
brace quantifiers (`{m,n}`, which need unbounded lookahead) and `(?`
group extensions are outside the modelled fragment; theorems about
`add_exclusion_rule` exclude them by hypothesis (`plainChar`, or the
absence of `\x7b` and of a `(?` sequence).
-/

/-- One regex token, as produced by `_pattern_to_regex` or appearing in the
built-in default rules: a literal character (this covers the escaped `\.`),
the class-star `[^/]*`, or the dot-star `.*` / `.*?` (for a boolean
match-existence semantics, laziness is irrelevant). -/
inductive Tok where
  | lit (c : Char)
  | starNS
  | dotStar
deriving DecidableEq

/-- How the regex ends: `free` for no trailing anchor (the default rules
`^\..*` and `backup/.*?`), `eos` for a plain `$`, `optSlashEos` for the
tail `(/.*)?$` that `_pattern_to_regex` appends to `**` patterns. -/
inductive REnd where
  | free
  | eos
  | optSlashEos
deriving DecidableEq

/-- A compiled pattern: whether it starts with `^`, its token body, and its
ending.  This is the shape of every regex the module compiles. -/
structure CompiledRegex where
  anchoredStart : Bool
  toks : List Tok
  endK : REnd
deriving DecidableEq

/-- Kleene star over single characters distinct from `bad`, followed by the
continuation `next`: at each position either hand over to `next`, or (if the
head is not `bad`) consume one character and continue starring. -/
def runStar (next : List Char → Bool) (bad : Char) : List Char → Bool
  | [] => next []
  | x :: xs => next (x :: xs) || (!decide (x = bad) && runStar next bad xs)

/-- End-of-regex test for a `search` (a match need not reach the end of the
string unless anchored by `$`).  Python's `$` holds at the very end or just
before a terminal newline. -/
def endSearch : REnd → List Char → Bool
  | .free, _ => true
  | .eos, s => decide (s = []) || decide (s = ['\n'])
  | .optSlashEos, s =>
    decide (s = []) || decide (s = ['\n']) ||
      (match s with
       | '/' :: t => !decide ('\n' ∈ t.dropLast)
       | _ => false)

/-- End-of-regex test for a `fullmatch`: the match must consume the entire
string, so the remainder must be empty (after `(/.*)?` the `.*` may consume
everything following `/` provided it contains no newline). -/
def endFull : REnd → List Char → Bool
  | .free, s => decide (s = [])
  | .eos, s => decide (s = [])
  | .optSlashEos, s =>
    decide (s = []) ||
      (match s with
       | '/' :: t => !decide ('\n' ∈ t)
       | _ => false)

/-- Run the token body of a regex against a string, finishing with the
end-test `fin`.  `[^/]*` may consume any character except `'/'`; `.*` any
character except `'\n'`. -/
def runTok (fin : List Char → Bool) : List Tok → List Char → Bool
  | [], s => fin s
  | Tok.lit c :: ts, s =>
    match s with
    | [] => false
    | x :: xs => decide (c = x) && runTok fin ts xs
  | Tok.starNS :: ts, s => runStar (fun u => runTok fin ts u) '/' s
  | Tok.dotStar :: ts, s => runStar (fun u => runTok fin ts u) '\n' s

/-- Try a match starting at every suffix of the string (what `re.search`
does for a pattern that does not begin with `^`). -/
def search_from (m : List Char → Bool) : List Char → Bool
  | [] => m []
  | x :: xs => m (x :: xs) || search_from m xs

/-- `BackupManager._match_exact`: `bool(pattern.fullmatch(path))`.  The
match must span the whole string, so the start anchor is irrelevant. -/
def match_exact (path : List Char) (r : CompiledRegex) : Bool :=
  runTok (endFull r.endK) r.toks path

/-- `BackupManager._match_wildcard`: `bool(pattern.search(path))`.  A regex
beginning with `^` can only match at position 0; otherwise every start
position is tried. -/
def match_wildcard (path : List Char) (r : CompiledRegex) : Bool :=
  if r.anchoredStart then runTok (endSearch r.endK) r.toks path
  else search_from (runTok (endSearch r.endK) r.toks) path

/-- The two match kinds, the module constants `EXACT = "exact"` and
`WILDCARD = "wildcard"` (only these two strings ever key the dispatch
table `_validate_methods`). -/
inductive MatchKind where
  | exact
  | wildcard
deriving DecidableEq

/-- One entry of `self.exclude_rules`: a `(compiled pattern, match_type)`
pair. -/
structure ExcludeRule where
  pattern : CompiledRegex
  match_type : MatchKind
deriving DecidableEq

/-- The dispatch table `self._validate_methods`, keyed by the match kind:
`"exact" ↦ _match_exact`, `"wildcard" ↦ _match_wildcard`. -/
def validate_method (k : MatchKind) : List Char → CompiledRegex → Bool :=
  match k with
  | .exact => match_exact
  | .wildcard => match_wildcard

/-- `BackupManager._should_exclude`: walk the rule list in order and return
`True` at the first rule whose dispatched matcher accepts the path. -/
def should_exclude (rules : List ExcludeRule) (rel_path : List Char) : Bool :=
  match rules with
  | [] => false
  | r :: rest =>
    if validate_method r.match_type rel_path r.pattern then true
    else should_exclude rest rel_path

/-- First built-in rule of `BackupManager.__init__`:
`(re.compile(r"^\..*"), "wildcard")` — anchored start, literal `.`, then
`.*`, no end anchor. -/
def dotfileRule : ExcludeRule :=
  ⟨⟨true, [Tok.lit '.', Tok.dotStar], REnd.free⟩, MatchKind.wildcard⟩

/-- Second built-in rule of `BackupManager.__init__`:
`(re.compile("backup/**".replace("**", r".*?")), "wildcard")`.  The string
replace happens before compilation, so the regex is the unanchored
`backup/.*?`: seven literal characters followed by a lazy dot-star. -/
def backupRule : ExcludeRule :=
  ⟨⟨false, (("backup/".toList).map Tok.lit) ++ [Tok.dotStar], REnd.free⟩, MatchKind.wildcard⟩

/-- The initial `self.exclude_rules` list. -/
def defaultRules : List ExcludeRule := [dotfileRule, backupRule]

/-- Python's `"**" in pattern`: some two adjacent characters are both `*`. -/
def containsDoubleStar : List Char → Bool
  | [] => false
  | [_] => false
  | c1 :: c2 :: r =>
    (decide (c1 = '*') && decide (c2 = '*')) || containsDoubleStar (c2 :: r)

/-- Python's `pattern.count("**")`: non-overlapping occurrences, scanned
left to right (so `"***"` counts 1 and `"****"` counts 2). -/
def count_double_star : List Char → Nat
  | [] => 0
  | [_] => 0
  | c1 :: c2 :: r =>
    if decide (c1 = '*') && decide (c2 = '*') then count_double_star r + 1
    else count_double_star (c2 :: r)

/-- The four `ValueError`s `_validate_pattern` can raise, in source order:
more than one `**`; `**` not at the end; pattern ending with an empty
segment; a segment with more than one `*`. -/
inductive PatternError where
  | multiDoubleStar
  | doubleStarNotAtEnd
  | emptyTrailingSegment
  | multiStar
deriving DecidableEq

/-- `BackupManager._validate_pattern`, with `raise` modelled as returning
`some` error and falling through as `none`.  `parts[-2]` is
`parts[len(parts) - 2]`, guarded by `len(parts) > 1`. -/
def validate_pattern (p : List Char) : Option PatternError :=
  if containsDoubleStar p then
    if 1 < count_double_star p then some PatternError.multiDoubleStar
    else if !(List.isSuffixOf ['*', '*'] p) then some PatternError.doubleStarNotAtEnd
    else
      let parts := p.splitOn '/'
      if decide (1 < parts.length) && decide (parts[parts.length - 2]? = some []) then
        some PatternError.emptyTrailingSegment
      else none
  else
    let parts := p.splitOn '/'
    if parts.any (fun part => decide (1 < part.count '*')) then some PatternError.multiStar
    else none

/-- Token body built by `_pattern_to_regex`'s replace chain
`pattern.replace(".", "\\.").replace("*", "[^/]*").replace("**", ".*?")`:
escaping `.` keeps it a literal; each `*` becomes `[^/]*`; the final
replace of `"**"` by `".*?"` never fires, because after the second replace
every `*` of the regex string is preceded by `]`, so no two `*` are
adjacent.  Hence each pattern character maps to exactly one token. -/
def toTokens (p : List Char) : List Tok :=
  p.map (fun c => if c = '*' then Tok.starNS else Tok.lit c)

/-- `BackupManager._pattern_to_regex` composed with `re.compile`: the body
from the replace chain, wrapped as `^body(/.*)?$` when the original pattern
contains `**` and as `^body$` otherwise. -/
def pattern_to_regex (p : List Char) : CompiledRegex :=
  ⟨true, toTokens p, if containsDoubleStar p then REnd.optSlashEos else REnd.eos⟩

/-- The input normalization at the top of `add_exclusion_rule`:
`pattern.replace("\\", "/").rstrip("/")`. -/
def normalize_pattern (p : List Char) : List Char :=
  (((p.map (fun c => if c = '\\' then '/' else c)).reverse.dropWhile
      (fun c => decide (c = '/'))).reverse)

/-- Quantifier context of the `re` parser at a position outside character
classes: nothing repeatable yet (start, or just after `(`, `|`, `^`, `$`),
a repeatable atom, a quantifier (which may still take a lazy `?` or
possessive `+` modifier), or a fully modified quantifier. -/
inductive QState where
  | fresh
  | atom
  | quant
  | lazyMod
deriving DecidableEq

/-- State of the regex syntax checker: normal mode with the open-group
depth and quantifier context; just after a backslash in normal mode; just
after `[`; just after `[^`; inside a class body with the previous item (a
range's potential lower bound) and whether a range `-` is pending; or just
after a backslash inside a class. -/
inductive ScanState where
  | norm (depth : Nat) (q : QState)
  | escNorm (depth : Nat)
  | classStart (depth : Nat)
  | classStartNeg (depth : Nat)
  | classBody (depth : Nat) (prev : Option Char) (dash : Bool)
  | escClass (depth : Nat) (prev : Option Char) (dash : Bool)
deriving DecidableEq

/-- Syntax checker for the regex bodies `_pattern_to_regex` generates,
deciding whether `re.compile` accepts them: tracks group balance,
quantifier placement (`*`/`+`/`?` need a preceding atom; after a
quantifier one lazy `?` or possessive `+` modifier is allowed; `^`, `$`,
`|` and `(` are not repeatable), and character classes (optional leading
`^`, a first `]` is literal, `\\`-escapes, ranges `lo-hi` must have
`lo ≤ hi`, unterminated classes are errors).  A trailing backslash is an
error.  At the end the group depth must be zero.  Backslashes in
generated bodies only occur as `\\.`, so the escaped character is always
treated as a literal item. -/
def scan_regex : ScanState → List Char → Bool
  | ScanState.norm d _, [] => decide (d = 0)
  | ScanState.escNorm _, [] => false
  | ScanState.classStart _, [] => false
  | ScanState.classStartNeg _, [] => false
  | ScanState.classBody _ _ _, [] => false
  | ScanState.escClass _ _ _, [] => false
  | ScanState.norm d q, c :: rest =>
    if c = '\\' then scan_regex (ScanState.escNorm d) rest
    else if c = '(' then scan_regex (ScanState.norm (d + 1) QState.fresh) rest
    else if c = ')' then
      if d = 0 then false else scan_regex (ScanState.norm (d - 1) QState.atom) rest
    else if c = '[' then scan_regex (ScanState.classStart d) rest
    else if c = '*' then
      if q = QState.atom then scan_regex (ScanState.norm d QState.quant) rest else false
    else if c = '+' ∨ c = '?' then
      if q = QState.atom then scan_regex (ScanState.norm d QState.quant) rest
      else if q = QState.quant then scan_regex (ScanState.norm d QState.lazyMod) rest
      else false
    else if c = '|' ∨ c = '^' ∨ c = '$' then scan_regex (ScanState.norm d QState.fresh) rest
    else scan_regex (ScanState.norm d QState.atom) rest
  | ScanState.escNorm d, _ :: rest => scan_regex (ScanState.norm d QState.atom) rest
  | ScanState.classStart d, c :: rest =>
    if c = '^' then scan_regex (ScanState.classStartNeg d) rest
    else if c = '\\' then scan_regex (ScanState.escClass d none false) rest
    else scan_regex (ScanState.classBody d (some c) false) rest
  | ScanState.classStartNeg d, c :: rest =>
    if c = '\\' then scan_regex (ScanState.escClass d none false) rest
    else scan_regex (ScanState.classBody d (some c) false) rest
  | ScanState.classBody d prev dash, c :: rest =>
    if c = ']' then scan_regex (ScanState.norm d QState.atom) rest
    else if c = '\\' then scan_regex (ScanState.escClass d prev dash) rest
    else if c = '-' then
      match prev, dash with
      | some p0, true =>
        if p0 ≤ '-' then scan_regex (ScanState.classBody d none false) rest else false
      | some p0, false => scan_regex (ScanState.classBody d (some p0) true) rest
      | none, _ => scan_regex (ScanState.classBody d (some '-') false) rest
    else
      match prev, dash with
      | some p0, true =>
        if p0 ≤ c then scan_regex (ScanState.classBody d none false) rest else false
      | _, _ => scan_regex (ScanState.classBody d (some c) false) rest
  | ScanState.escClass d prev dash, e :: rest =>
    match prev, dash with
    | some p0, true =>
      if p0 ≤ e then scan_regex (ScanState.classBody d none false) rest else false
    | _, _ => scan_regex (ScanState.classBody d (some e) false) rest

/-- The regex body built by `_pattern_to_regex`'s replace chain, at the
character level: `.` becomes the escape `\.`, `*` becomes `[^/]*`, every
other character passes through (normalized patterns contain no
backslash). -/
def regex_body (p : List Char) : List Char :=
  p.flatMap (fun c =>
    if c = '.' then ['\\', '.']
    else if c = '*' then ['[', '^', '/', ']', '*']
    else [c])

/-- Whether `re.compile` accepts the regex `_pattern_to_regex` builds for
the (normalized) pattern `p`.  The `^` prefix only fixes the initial
non-repeatable context, and the appended tail (`$`, or `(/.*)?$` for `**`
patterns) is itself well formed, contains no `]` and is balanced, so it
can neither terminate an open class nor close an open group: checking the
body alone gives the same verdict. -/
def regex_wf (p : List Char) : Bool :=
  scan_regex (ScanState.norm 0 QState.fresh) (regex_body p)

/-- Whether the pattern contains the two-character sequence `(?` — the
start of a `re` group-extension form, outside the modelled fragment. -/
def contains_paren_question : List Char → Bool
  | [] => false
  | [_] => false
  | c1 :: c2 :: r =>
    (decide (c1 = '(') && decide (c2 = '?')) || contains_paren_question (c2 :: r)

/-- The exceptions `add_exclusion_rule` can raise: one of the four
`ValueError`s from `_validate_pattern`, or the `re.error` that
`re.compile` raises on a malformed generated regex (a distinct type:
`re.error` is not a `ValueError`). -/
inductive AddError where
  | invalid (e : PatternError)
  | reError
deriving DecidableEq

/-- `BackupManager.add_exclusion_rule`: normalize, validate (propagating
the `ValueError`), build the regex and compile it (raising `re.error`
when the regex is malformed, per `regex_wf`), then append the single
compiled rule to the list.  The rule list is threaded explicitly in place
of `self.exclude_rules`; every failure leaves it untouched, since the
append runs last. -/
def add_exclusion_rule (rules : List ExcludeRule) (pattern : List Char)
    (match_type : MatchKind) : Except AddError (List ExcludeRule) :=
  let p := normalize_pattern pattern
  match validate_pattern p with
  | some e => Except.error (AddError.invalid e)
  | none =>
    if regex_wf p then Except.ok (rules ++ [⟨pattern_to_regex p, match_type⟩])
    else Except.error AddError.reError

/-- Characters interpreted literally both by this embedding and by the
Python `re` engine after `_pattern_to_regex`'s escaping; the remaining
`re` metacharacters are outside the embedding's scope (see the file
header). -/
def plainChar (c : Char) : Bool :=
  !(decide (c ∈ ['\\', '^', '$', '+', '?', '(', ')', '[', ']', '\x7b', '\x7d', '|']))

/-- A directory entry as seen by `Path.iterdir`: a file, or a directory
with its children (in enumeration order). -/
inductive FSEntry where
  | file (name : List Char)
  | dir (name : List Char) (children : List FSEntry)

mutual

/-- One loop iteration of `BackupManager._walk_directory`: the entry's path
relative to the *current* `root` is its bare name `n`, which is what is
passed to `_should_exclude`; if excluded the entry is skipped, otherwise a
directory is recursed into and a file is yielded.  `pre` records the path
of the current directory relative to the workspace root (the code yields
absolute `Path` objects; `pre ++ n` is the yielded file's workspace-
relative path). -/
def walk_entry (rules : List ExcludeRule) (pre : List Char) : FSEntry → List (List Char)
  | .file n => if should_exclude rules n then [] else [pre ++ n]
  | .dir n cs =>
    if should_exclude rules n then []
    else walk_directory rules (pre ++ n ++ ['/']) cs

/-- `BackupManager._walk_directory` over the listing of one directory. -/
def walk_directory (rules : List ExcludeRule) (pre : List Char) : List FSEntry → List (List Char)
  | [] => []
  | e :: rest => walk_entry rules pre e ++ walk_directory rules pre rest

end

/-- Error cases of `_read_exclude_rules`: the store file absent
(`FileNotFoundError`) or holding no pickle (`EOFError`); either way the
defaults are *not* returned. -/
inductive ReadError where
  | emptyOrMissing
deriving DecidableEq

/-- `_write_exclude_rules`: the store is opened with mode `"ab"`, so the
pickled rule list is *appended* after whatever the file already holds.
The store is modelled as the sequence of pickled objects in the file. -/
def write_exclude_rules (store : List (List ExcludeRule)) (rules : List ExcludeRule) :
    List (List ExcludeRule) :=
  store ++ [rules]

/-- `_read_exclude_rules`: a single `pickle.load` reads the *first* object
of the file; an empty or absent file raises. -/
def read_exclude_rules : List (List ExcludeRule) → Except ReadError (List ExcludeRule)
  | [] => Except.error ReadError.emptyOrMissing
  | r :: _ => Except.ok r

/-! ## Matcher lemmas -/

/-- A star whose continuation accepts everything accepts everything. -/
lemma runStar_of_next (next : List Char → Bool) (bad : Char)
    (h : ∀ t, next t = true) : ∀ s, runStar next bad s = true := by
  intro s
  cases s with
  | nil => simp [runStar, h]
  | cons x xs => simp [runStar, h]

/-- Characterization of `runStar`: some `bad`-free chunk is consumed and
the continuation accepts the rest. -/
lemma runStar_ex (next : List Char → Bool) (bad : Char) :
    ∀ s, runStar next bad s = true ↔
      ∃ a b, s = a ++ b ∧ (∀ c ∈ a, c ≠ bad) ∧ next b = true := by
  intro s
  induction s with
  | nil =>
    constructor
    · intro h
      exact ⟨[], [], rfl, by simp, h⟩
    · rintro ⟨a, b, hab, _, hb⟩
      rcases List.append_eq_nil.mp hab.symm with ⟨rfl, rfl⟩
      exact hb
  | cons x xs ih =>
    constructor
    · intro h
      rw [runStar] at h
      rcases Bool.or_eq_true_iff.mp h with h1 | h2
      · exact ⟨[], x :: xs, rfl, by simp, h1⟩
      · rcases Bool.and_eq_true_iff.mp h2 with ⟨hx, hr⟩
        rcases ih.mp hr with ⟨a, b, rfl, ha, hb⟩
        refine ⟨x :: a, b, rfl, ?_, hb⟩
        intro c hc
        rcases List.mem_cons.mp hc with rfl | hc
        · simpa using hx
        · exact ha c hc
    · rintro ⟨a, b, hab, ha, hb⟩
      rw [runStar]
      cases a with
      | nil =>
        simp only [List.nil_append] at hab
        subst hab
        simp [hb]
      | cons y a' =>
        injection hab with h1 h2
        subst h1
        have hx : (!decide (x = bad)) = true := by
          simp [ha x (List.mem_cons_self x a')]
        have hrest : runStar next bad xs = true :=
          ih.mpr ⟨a', b, h2, fun c hc => ha c (List.mem_cons_of_mem _ hc), hb⟩
        simp [hx, hrest]

/-- Running a block of literal tokens consumes exactly those characters. -/
lemma runTok_lits (fin : List Char → Bool) (q : List Char) (ts : List Tok) :
    ∀ s, runTok fin (q.map Tok.lit ++ ts) s = true ↔
      ∃ u, s = q ++ u ∧ runTok fin ts u = true := by
  induction q with
  | nil =>
    intro s
    simp
  | cons c q' ih =>
    intro s
    cases s with
    | nil =>
      simp only [List.map_cons, List.cons_append, runTok]
      constructor
      · intro h
        exact absurd h (by simp)
      · rintro ⟨u, hu, _⟩
        exact absurd hu (by simp)
    | cons x xs =>
      simp only [List.map_cons, List.cons_append, runTok]
      constructor
      · intro h
        rcases Bool.and_eq_true_iff.mp h with ⟨hc, hr⟩
        have hcx : c = x := of_decide_eq_true hc
        rcases (ih xs).mp hr with ⟨u, rfl, hu⟩
        exact ⟨u, by simp [hcx], hu⟩
      · rintro ⟨u, hu, hru⟩
        have hcx : c = x ∧ xs = q' ++ u := by
          have := hu
          simp only [List.cons_append] at this
          exact ⟨(List.cons.inj this).1.symm, (List.cons.inj this).2⟩
        rcases hcx with ⟨rfl, rfl⟩
        simp only [decide_true_eq_true, Bool.true_and]
        exact (ih _).mpr ⟨u, rfl, hru⟩

/-- `runStar` only feeds its continuation decompositions of the input. -/
lemma runStar_congr (bad : Char) :
    ∀ (s : List Char) (n1 n2 : List Char → Bool),
      (∀ t u, s = t ++ u → n1 u = n2 u) → runStar n1 bad s = runStar n2 bad s := by
  intro s
  induction s with
  | nil =>
    intro n1 n2 h
    simpa [runStar] using h [] [] rfl
  | cons x xs ih =>
    intro n1 n2 h
    rw [runStar, runStar, h [] (x :: xs) rfl,
      ih n1 n2 (fun t u hu => h (x :: t) u (by simp [hu]))]

/-- `runTok` only feeds its end-test decompositions of the input, so two
end-tests that agree on all decompositions give the same match result. -/
lemma runTok_congr (ts : List Tok) :
    ∀ (s : List Char) (f g : List Char → Bool),
      (∀ t u, s = t ++ u → f u = g u) → runTok f ts s = runTok g ts s := by
  induction ts with
  | nil =>
    intro s f g h
    simpa [runTok] using h [] s rfl
  | cons tk ts ih =>
    intro s f g h
    cases tk with
    | lit c =>
      cases s with
      | nil => simp [runTok]
      | cons x xs =>
        simp only [runTok]
        rw [ih xs f g (fun t u hu => h (x :: t) u (by simp [hu]))]
    | starNS =>
      simp only [runTok]
      exact runStar_congr '/' s _ _
        (fun t u hu => ih u f g (fun t' u' hu' => h (t ++ t') u' (by simp [hu, hu'])))
    | dotStar =>
      simp only [runTok]
      exact runStar_congr '\n' s _ _
        (fun t u hu => ih u f g (fun t' u' hu' => h (t ++ t') u' (by simp [hu, hu'])))

/-- Two `[^/]*` tokens accept any newline-free remainder when the end-test
accepts the empty string and any `'/'`-headed newline-free string: the
stars consume up to the first `'/'` and the end-test takes the rest. -/
lemma runTok_two_star (fin : List Char → Bool) (h1 : fin [] = true)
    (h2 : ∀ t, '\n' ∉ t → fin ('/' :: t) = true) :
    ∀ s, '\n' ∉ s → runTok fin [Tok.starNS, Tok.starNS] s = true := by
  intro s
  induction s with
  | nil =>
    intro _
    simp [runTok, runStar, h1]
  | cons x xs ih =>
    intro hs
    have hxs : '\n' ∉ xs := fun h => hs (List.mem_cons_of_mem _ h)
    by_cases hx : x = '/'
    · subst hx
      simp only [runTok, runStar]
      have : fin ('/' :: xs) = true := h2 xs hxs
      simp [this]
    · simp only [runTok, runStar]
      have hrec := ih hxs
      simp only [runTok] at hrec
      simp [hx, hrec]

/-- Characterization of `search_from`: a match exists at some start
position, i.e. on some terminal decomposition piece. -/
lemma search_from_ex (m : List Char → Bool) :
    ∀ s, search_from m s = true ↔ ∃ t u, s = t ++ u ∧ m u = true := by
  intro s
  induction s with
  | nil =>
    constructor
    · intro h
      exact ⟨[], [], rfl, h⟩
    · rintro ⟨t, u, htu, hu⟩
      rcases List.append_eq_nil.mp htu.symm with ⟨rfl, rfl⟩
      exact hu
  | cons x xs ih =>
    simp only [search_from]
    constructor
    · intro h
      rcases Bool.or_eq_true_iff.mp h with h1 | h1
      · exact ⟨[], x :: xs, rfl, h1⟩
      · rcases ih.mp h1 with ⟨t, u, rfl, hu⟩
        exact ⟨x :: t, u, rfl, hu⟩
    · rintro ⟨t, u, htu, hu⟩
      cases t with
      | nil =>
        simp only [List.nil_append] at htu
        subst htu
        simp [hu]
      | cons y t' =>
        injection htu with hy ht
        exact Bool.or_eq_true_iff.mpr (Or.inr (ih.mpr ⟨t', u, ht, hu⟩))

/-- Number of literal `'/'` tokens in a token body: the only way a body
without `.*` can consume a separator. -/
def litSlashes : List Tok → Nat
  | [] => 0
  | Tok.lit c :: ts => (if c = '/' then 1 else 0) + litSlashes ts
  | _ :: ts => litSlashes ts

/-- In a full match by a `.*`-free body whose end-test only accepts the
empty remainder, the separators of the path are exactly the literal `'/'`
tokens of the body: `[^/]*` can never consume one. -/
lemma runTok_slash_count (ts : List Tok) (hds : Tok.dotStar ∉ ts)
    (fin : List Char → Bool) (hfin : ∀ t, fin t = true → t = []) :
    ∀ s, runTok fin ts s = true → s.count '/' = litSlashes ts := by
  induction ts with
  | nil =>
    intro s h
    rw [hfin s h]
    rfl
  | cons tk ts ih =>
    have hds' : Tok.dotStar ∉ ts := fun h => hds (List.mem_cons_of_mem _ h)
    intro s h
    cases tk with
    | lit c =>
      cases s with
      | nil => exact absurd h (by simp [runTok])
      | cons x xs =>
        rw [runTok] at h
        rcases Bool.and_eq_true_iff.mp h with ⟨hc, hr⟩
        have hcx : c = x := of_decide_eq_true hc
        subst hcx
        have := ih hds' xs hr
        simp only [litSlashes, List.count_cons, this]
        by_cases hc' : c = '/'
        · simp [hc']
          omega
        · simp [hc', Ne.symm hc']
    | starNS =>
      rw [runTok] at h
      rcases (runStar_ex _ '/' s).mp h with ⟨a, b, rfl, ha, hb⟩
      have hbc := ih hds' b hb
      have hac : a.count '/' = 0 := by
        rw [List.count_eq_zero]
        intro hmem
        exact ha '/' hmem rfl
      simp [List.count_append, hac, hbc, litSlashes]
    | dotStar => exact absurd (List.mem_cons_self _ _) hds

/-- The token body of a compiled pattern has one literal `'/'` per `'/'`
of the pattern. -/
lemma litSlashes_toTokens (p : List Char) : litSlashes (toTokens p) = p.count '/' := by
  induction p with
  | nil => rfl
  | cons c p ih =>
    by_cases hc : c = '*'
    · subst hc
      simp [toTokens, litSlashes, List.count_cons] at *
      simpa using ih
    · simp only [toTokens, List.map_cons, if_neg hc, litSlashes, List.count_cons] at *
      by_cases hs : c = '/'
      · simp [hs, ih]
        omega
      · simp [hs, Ne.symm hs, ih]

/-- `_pattern_to_regex` never emits a `.*` token (every `*` of the pattern
becomes `[^/]*`; the `"**" → ".*?"` replace is dead, see `toTokens`). -/
lemma dotStar_not_mem_toTokens (p : List Char) : Tok.dotStar ∉ toTokens p := by
  intro h
  rcases List.mem_map.mp h with ⟨c, _, hc⟩
  by_cases h' : c = '*' <;> simp [h'] at hc

/-- A pattern without `*` compiles to a purely literal token body. -/
lemma toTokens_no_star (p : List Char) (hp : '*' ∉ p) : toTokens p = p.map Tok.lit := by
  unfold toTokens
  apply List.map_congr_left
  intro c hc
  have : c ≠ '*' := fun h => hp (h ▸ hc)
  simp [this]

/-- A pattern ending in `**` contains `**`. -/
lemma containsDoubleStar_append_double_star (q : List Char) :
    containsDoubleStar (q ++ ['*', '*']) = true := by
  induction q with
  | nil => decide
  | cons c q ih =>
    cases q with
    | nil =>
      have h2 : containsDoubleStar ['*', '*'] = true := by decide
      rw [List.cons_append, List.nil_append, containsDoubleStar, h2]
      simp
    | cons d q' =>
      rw [List.cons_append, List.cons_append, containsDoubleStar]
      rw [List.cons_append] at ih
      simp [ih]

/-- A pattern without `*` contains no `**`. -/
lemma containsDoubleStar_eq_false (p : List Char) (hp : '*' ∉ p) :
    containsDoubleStar p = false := by
  induction p with
  | nil => rfl
  | cons c p ih =>
    have hc : c ≠ '*' := fun h => hp (h ▸ List.mem_cons_self _ _)
    have hp' : '*' ∉ p := fun h => hp (List.mem_cons_of_mem _ h)
    cases p with
    | nil => rfl
    | cons c2 r =>
      rw [containsDoubleStar, ih hp', Bool.or_false]
      simp [hc]

/-- Without `**` in the pattern the non-overlapping `**` count is zero. -/
lemma count_double_star_eq_zero (p : List Char) (h : containsDoubleStar p = false) :
    count_double_star p = 0 := by
  induction p with
  | nil => rfl
  | cons c rest ih =>
    cases rest with
    | nil => rfl
    | cons c2 r =>
      rw [containsDoubleStar, Bool.or_eq_false_iff] at h
      rw [count_double_star, if_neg (by simpa using h.1)]
      exact ih h.2

/-- `_should_exclude` is the ordered OR of its rules' dispatched matches. -/
lemma should_exclude_iff (rules : List ExcludeRule) (s : List Char) :
    should_exclude rules s = true ↔
      ∃ r, r ∈ rules ∧ validate_method r.match_type s r.pattern = true := by
  induction rules with
  | nil => simp [should_exclude]
  | cons r rest ih =>
    rw [should_exclude]
    by_cases h : validate_method r.match_type s r.pattern = true
    · simp only [if_pos h, true_iff]
      exact ⟨r, List.mem_cons_self _ _, h⟩
    · simp only [if_neg h, ih]
      constructor
      · rintro ⟨r', hr', hm⟩
        exact ⟨r', List.mem_cons_of_mem _ hr', hm⟩
      · rintro ⟨r', hr', hm⟩
        rcases List.mem_cons.mp hr' with rfl | hr'
        · exact absurd hm h
        · exact ⟨r', hr', hm⟩

/-- Two booleans equal when their truth is equivalent. -/
lemma bool_eq_of_true_iff (a b : Bool) (h : a = true ↔ b = true) : a = b := by
  cases a <;> cases b <;> simp_all

/-- Escaped-dot chunk: one literal atom. -/
lemma scan_dot_chunk (d : Nat) (q : QState) (rest : List Char) :
    scan_regex (ScanState.norm d q) ('\\' :: '.' :: rest)
      = scan_regex (ScanState.norm d QState.atom) rest := rfl

/-- The `[^/]*` chunk `*` compiles to: a one-element negated class, then a
quantifier on it. -/
lemma scan_star_chunk (d : Nat) (q : QState) (rest : List Char) :
    scan_regex (ScanState.norm d q) ('[' :: '^' :: '/' :: ']' :: '*' :: rest)
      = scan_regex (ScanState.norm d QState.quant) rest := rfl

/-- Any character that is no `re` metacharacter is a literal atom. -/
lemma scan_other_chunk (d : Nat) (q : QState) (c : Char) (rest : List Char)
    (h : c ∉ ['\\', '(', ')', '[', '*', '+', '?', '|', '^', '$']) :
    scan_regex (ScanState.norm d q) (c :: rest)
      = scan_regex (ScanState.norm d QState.atom) rest := by
  have h1 : ¬ c = '\\' := fun hc => h (by simp [hc])
  have h2 : ¬ c = '(' := fun hc => h (by simp [hc])
  have h3 : ¬ c = ')' := fun hc => h (by simp [hc])
  have h4 : ¬ c = '[' := fun hc => h (by simp [hc])
  have h5 : ¬ c = '*' := fun hc => h (by simp [hc])
  have h6 : ¬ (c = '+' ∨ c = '?') := by
    rintro (hc | hc) <;> exact h (by simp [hc])
  have h7 : ¬ (c = '|' ∨ c = '^' ∨ c = '$') := by
    rintro (hc | hc | hc) <;> exact h (by simp [hc])
  conv_lhs => rw [scan_regex]
  rw [if_neg h1, if_neg h2, if_neg h3, if_neg h4, if_neg h5, if_neg h6, if_neg h7]

/-- The regex body of a pattern whose characters carry no `re`
metacharacter always scans successfully from any quantifier context at
depth zero: every character expands to a complete atom (or atom plus
quantifier) chunk. -/
lemma scan_regex_body_plain (p : List Char) (hp : p.all plainChar = true) :
    ∀ q : QState, scan_regex (ScanState.norm 0 q) (regex_body p) = true := by
  induction p with
  | nil => intro q; rfl
  | cons c p' ih =>
    intro q
    rw [List.all_cons, Bool.and_eq_true] at hp
    have hrec := ih hp.2
    have hbody : regex_body (c :: p') = (if c = '.' then ['\\', '.']
        else if c = '*' then ['[', '^', '/', ']', '*'] else [c]) ++ regex_body p' := by
      simp [regex_body]
    by_cases hdot : c = '.'
    · rw [hbody, if_pos hdot, List.cons_append, List.cons_append, List.nil_append,
        scan_dot_chunk]
      exact hrec QState.atom
    · by_cases hstar : c = '*'
      · rw [hbody, if_neg hdot, if_pos hstar]
        show scan_regex (ScanState.norm 0 q) ('[' :: '^' :: '/' :: ']' :: '*' :: regex_body p')
          = true
        rw [scan_star_chunk]
        exact hrec QState.quant
      · rw [hbody, if_neg hdot, if_neg hstar, List.cons_append, List.nil_append,
          scan_other_chunk 0 q c (regex_body p') ?_]
        · exact hrec QState.atom
        · intro hmem
          have hplain : plainChar c = true := hp.1
          rw [plainChar] at hplain
          have hnotin : ¬ c ∈ ['\\', '^', '$', '+', '?', '(', ')', '[', ']',
              '\x7b', '\x7d', '|'] := by
            intro hin
            rw [decide_eq_true hin] at hplain
            exact Bool.false_ne_true hplain
          rcases (by simpa using hmem :
              c = '\\' ∨ c = '(' ∨ c = ')' ∨ c = '[' ∨ c = '*' ∨ c = '+' ∨ c = '?'
                ∨ c = '|' ∨ c = '^' ∨ c = '$') with
            rfl | rfl | rfl | rfl | rfl | rfl | rfl | rfl | rfl | rfl
          · exact hnotin (by simp)
          · exact hnotin (by simp)
          · exact hnotin (by simp)
          · exact hnotin (by simp)
          · exact hstar rfl
          · exact hnotin (by simp)
          · exact hnotin (by simp)
          · exact hnotin (by simp)
          · exact hnotin (by simp)
          · exact hnotin (by simp)

/-- A pattern made of plain characters compiles to a well-formed regex. -/
lemma regex_wf_of_plain (p : List Char) (hp : p.all plainChar = true) :
    regex_wf p = true :=
  scan_regex_body_plain p hp QState.fresh

/-! ## Claims -/

/-- C1, counterexample: the claim says `Compile("logs/**")` matches
`"logs"` itself, but the compiled regex `^logs/[^/]*[^/]*(/.*)?$` requires
the separator after the prefix, so neither the wildcard search nor the
exact full match accepts the bare prefix `"logs"`. -/
theorem c1_counterexample :
    match_wildcard ("logs".toList) (pattern_to_regex ("logs/**".toList)) = false
    ∧ match_exact ("logs".toList) (pattern_to_regex ("logs/**".toList)) = false := by
  decide

/-- C1, amended: for a pattern `q ++ "**"` whose stem `q` is literal, the
compiled pattern matches exactly the (newline-free) paths that have `q` as
a prefix — for `"logs/**"` these are the paths starting with `"logs/"`,
which includes `"logs/a"` and `"logs/a/b"` but excludes the bare prefix
`"logs"` and `"logsx"` — under both the wildcard (search) and the exact
(fullmatch) dispatch. -/
theorem c1_amended_prefix_ext (q s : List Char) (hq : '*' ∉ q)
    (_hplain : q.all plainChar = true) (hs : '\n' ∉ s) :
    (match_wildcard s (pattern_to_regex (q ++ ['*', '*'])) = true ↔ ∃ t, s = q ++ t)
    ∧ (match_exact s (pattern_to_regex (q ++ ['*', '*'])) = true ↔ ∃ t, s = q ++ t) := by
  have hcds : containsDoubleStar (q ++ ['*', '*']) = true :=
    containsDoubleStar_append_double_star q
  have htoks : toTokens (q ++ ['*', '*']) = q.map Tok.lit ++ [Tok.starNS, Tok.starNS] := by
    have happ : toTokens (q ++ ['*', '*']) = toTokens q ++ toTokens ['*', '*'] := by
      simp [toTokens]
    rw [happ, toTokens_no_star q hq]
    rfl
  have hsub : ∀ t u : List Char, s = t ++ u → '\n' ∉ u := by
    intro t u hu hmem
    exact hs (hu ▸ List.mem_append_right t hmem)
  constructor
  · have hrw : match_wildcard s (pattern_to_regex (q ++ ['*', '*']))
        = runTok (endSearch REnd.optSlashEos) (q.map Tok.lit ++ [Tok.starNS, Tok.starNS]) s := by
      rw [match_wildcard]
      simp [pattern_to_regex, hcds, htoks]
    rw [hrw, runTok_lits]
    constructor
    · rintro ⟨u, rfl, _⟩
      exact ⟨u, rfl⟩
    · rintro ⟨t, rfl⟩
      refine ⟨t, rfl, ?_⟩
      refine runTok_two_star _ (by decide) ?_ t (hsub q t rfl)
      intro v hv
      have hvd : '\n' ∉ v.dropLast := fun h => hv (List.dropLast_sublist v |>.mem h)
      simp [endSearch, hvd]
  · have hrw : match_exact s (pattern_to_regex (q ++ ['*', '*']))
        = runTok (endFull REnd.optSlashEos) (q.map Tok.lit ++ [Tok.starNS, Tok.starNS]) s := by
      rw [match_exact]
      simp [pattern_to_regex, hcds, htoks]
    rw [hrw, runTok_lits]
    constructor
    · rintro ⟨u, rfl, _⟩
      exact ⟨u, rfl⟩
    · rintro ⟨t, rfl⟩
      refine ⟨t, rfl, ?_⟩
      refine runTok_two_star _ (by decide) ?_ t (hsub q t rfl)
      intro v hv
      simp [endFull, hv]

/-- C1, witness: `"logs/**"` (stem `"logs/"`) does match `"logs/a/b"`. -/
theorem c1_witness :
    match_wildcard ("logs/a/b".toList) (pattern_to_regex (("logs/".toList) ++ ['*', '*'])) = true :=
  (c1_amended_prefix_ext ("logs/".toList) ("logs/a/b".toList) (by decide) (by decide)
    (by decide)).1.mpr ⟨("a/b".toList), by decide⟩

/-- Rule list for exercising the walk: the defaults plus an exact rule for
the workspace-relative path `"a/b"` (added by
`add_exclusion_rule("a/b", "exact")`). -/
def rulesAB : List ExcludeRule :=
  defaultRules ++ [⟨pattern_to_regex ("a/b".toList), MatchKind.exact⟩]

/-- C2, counterexample: `_walk_directory` passes
`path.relative_to(root)` where `root` is the directory currently being
enumerated, i.e. the bare entry name.  With a rule excluding the
workspace-relative path `"a/b"`, the walk of the tree `a/ ⊢ b` still
yields the file `"a/b"` even though `ShouldExclude("a/b")` is true —
contradicting the claim that every entry is tested by its path relative
to the workspace root. -/
theorem c2_counterexample :
    walk_entry rulesAB [] (FSEntry.dir ("a".toList) [FSEntry.file ("b".toList)])
        = [("a/b".toList)]
    ∧ should_exclude rulesAB ("a/b".toList) = true := by
  constructor
  · have ha : should_exclude rulesAB ("a".toList) = false := by decide
    have hb : should_exclude rulesAB ("b".toList) = false := by decide
    rw [walk_entry, if_neg (by rw [ha]; exact Bool.false_ne_true), walk_directory,
      walk_entry, if_neg (by rw [hb]; exact Bool.false_ne_true), walk_directory]
    decide
  · decide

/-- C2, amended: each walk entry is tested by `ShouldExclude` on its *name*
(its path relative to the directory being enumerated); when that test is
true the entry is skipped — a directory is not descended into, so none of
its descendants is yielded or tested — and when it is false a file is
yielded and a directory's children are walked. -/
theorem c2_amended_walk_by_name (rules : List ExcludeRule) (pre : List Char) :
    (∀ n cs, should_exclude rules n = true → walk_entry rules pre (FSEntry.dir n cs) = [])
    ∧ (∀ n, should_exclude rules n = true → walk_entry rules pre (FSEntry.file n) = [])
    ∧ (∀ n, should_exclude rules n = false → walk_entry rules pre (FSEntry.file n) = [pre ++ n])
    ∧ (∀ n cs, should_exclude rules n = false →
        walk_entry rules pre (FSEntry.dir n cs) = walk_directory rules (pre ++ n ++ ['/']) cs) := by
  refine ⟨fun n cs h => ?_, fun n h => ?_, fun n h => ?_, fun n cs h => ?_⟩
  · rw [walk_entry, if_pos h]
  · rw [walk_entry, if_pos h]
  · rw [walk_entry, if_neg (by rw [h]; exact Bool.false_ne_true)]
  · rw [walk_entry, if_neg (by rw [h]; exact Bool.false_ne_true)]

/-- C2, witness: the default dot-file rule excludes the name `".git"`, so
the walk prunes the whole `.git` directory. -/
theorem c2_witness :
    walk_entry defaultRules [] (FSEntry.dir (".git".toList) [FSEntry.file ("config".toList)]) = [] :=
  (c2_amended_walk_by_name defaultRules []).1 (".git".toList) [FSEntry.file ("config".toList)]
    (by decide)

/-- C3, counterexample: a Wildcard rule added for the pattern `"abc"`
compiles to the anchored regex `^abc$`, whose `re.search` cannot match
inside `"xabcx"`; `ShouldExclude("xabcx")` stays false, contradicting the
claimed substring semantics. -/
theorem c3_counterexample :
    add_exclusion_rule defaultRules ("abc".toList) MatchKind.wildcard
        = Except.ok (defaultRules ++ [⟨pattern_to_regex ("abc".toList), MatchKind.wildcard⟩])
    ∧ should_exclude (defaultRules ++ [⟨pattern_to_regex ("abc".toList), MatchKind.wildcard⟩])
        ("xabcx".toList) = false := by
  exact ⟨rfl, by decide⟩

/-- C3, amended: Wildcard dispatch does use `re.search`, but every pattern
compiled by `add_exclusion_rule` is anchored by `^...$`, so for a literal
pattern the search succeeds exactly on the whole path: a Wildcard rule for
`p` matches a (newline-free) path `s` iff `s = p`. -/
theorem c3_amended_anchored_search (p s : List Char) (hp : '*' ∉ p)
    (_hplain : p.all plainChar = true) (hs : '\n' ∉ s) :
    match_wildcard s (pattern_to_regex p) = true ↔ s = p := by
  have hcds : containsDoubleStar p = false := containsDoubleStar_eq_false p hp
  have hrw : match_wildcard s (pattern_to_regex p)
      = runTok (endSearch REnd.eos) (p.map Tok.lit) s := by
    rw [match_wildcard]
    simp [pattern_to_regex, hcds, toTokens_no_star p hp]
  have hlits : ∀ u, runTok (endSearch REnd.eos) (p.map Tok.lit ++ []) u
      = runTok (endSearch REnd.eos) (p.map Tok.lit) u := by
    intro u
    rw [List.append_nil]
  rw [hrw, ← hlits, runTok_lits]
  constructor
  · rintro ⟨u, rfl, hu⟩
    rw [runTok] at hu
    rcases Bool.or_eq_true_iff.mp hu with h1 | h1
    · rw [of_decide_eq_true h1, List.append_nil]
    · exfalso
      have hu' : u = ['\n'] := of_decide_eq_true h1
      subst hu'
      exact hs (List.mem_append_right p (List.mem_cons_self _ _))
  · rintro rfl
    exact ⟨[], by simp, by decide⟩

/-- C3, witness: the Wildcard rule for `"abc"` does match the path
`"abc"` itself. -/
theorem c3_witness :
    match_wildcard ("abc".toList) (pattern_to_regex ("abc".toList)) = true :=
  (c3_amended_anchored_search ("abc".toList) ("abc".toList) (by decide) (by decide)
    (by decide)).mpr rfl

/-- The four validation rules exactly as the claim states them, one
disjunct per rule: more than one (non-overlapping) occurrence of `**`;
`**` present but not the final two characters; a `**` pattern whose
second-to-last `/`-separated segment is empty; and, for patterns without
`**`, some `/`-separated segment with two or more `*`. -/
def claimedViolation (p : List Char) : Bool :=
  decide (1 < count_double_star p)
  || (containsDoubleStar p && !(List.isSuffixOf ['*', '*'] p))
  || (containsDoubleStar p
      && (decide (1 < (p.splitOn '/').length)
          && decide ((p.splitOn '/')[(p.splitOn '/').length - 2]? = some [])))
  || (!(containsDoubleStar p)
      && (p.splitOn '/').any (fun part => decide (1 < part.count '*')))

/-- C4, counterexample: `add_exclusion_rule` normalizes before validating
(`replace("\\", "/")` then `rstrip("/")`).  The raw pattern `a\\**`
violates none of the four rules, yet AddRule fails: normalization turns it
into `a//**`, whose second-to-last segment is empty.  So "for every
pattern violating none of these, AddRule succeeds" is false for raw
patterns. -/
theorem c4_counterexample :
    claimedViolation ("a\\\\**".toList) = false
    ∧ add_exclusion_rule defaultRules ("a\\\\**".toList) MatchKind.wildcard
        = Except.error (AddError.invalid PatternError.emptyTrailingSegment) := by
  exact ⟨by decide, rfl⟩

/-- C4, amended: `_validate_pattern` raises exactly when one of the four
claimed rules is violated; and AddRule succeeds (appending the compiled
rule) for every pattern whose *normalized* form (backslashes to `/`,
trailing `/` stripped) violates none of them and carries no unescaped
`re` metacharacter — without the latter condition `re.compile` can still
raise `re.error` after validation passes, as `c4_counterexample`'s
sibling `c9_counterexample` shows at the pattern `a(`. -/
theorem c4_amended_validation_iff (p : List Char) :
    ((validate_pattern p).isSome = claimedViolation p)
    ∧ (∀ (rules : List ExcludeRule) (k : MatchKind),
        (normalize_pattern p).all plainChar = true →
          claimedViolation (normalize_pattern p) = false →
            add_exclusion_rule rules p k
              = Except.ok (rules ++ [⟨pattern_to_regex (normalize_pattern p), k⟩])) := by
  have main : ∀ q : List Char, (validate_pattern q).isSome = claimedViolation q := by
    intro q
    rw [validate_pattern, claimedViolation]
    by_cases hc : containsDoubleStar q = true
    · rw [if_pos hc, hc]
      by_cases h1 : 1 < count_double_star q
      · simp [h1]
      · by_cases h2 : List.isSuffixOf ['*', '*'] q = true
        · by_cases h3 : (decide (1 < (q.splitOn '/').length)
              && decide ((q.splitOn '/')[(q.splitOn '/').length - 2]? = some [])) = true
          · simp [h1, h2, h3]
          · simp [h1, h2, Bool.eq_false_iff.mpr h3]
        · simp [h1, Bool.eq_false_iff.mpr h2]
    · have hc' : containsDoubleStar q = false := Bool.eq_false_iff.mpr hc
      have hcnt : count_double_star q = 0 := count_double_star_eq_zero q hc'
      rw [if_neg hc, hc', hcnt]
      by_cases h4 : (q.splitOn '/').any (fun part => decide (1 < part.count '*')) = true
      · simp [h4]
      · simp [Bool.eq_false_iff.mpr h4]
  refine ⟨main p, fun rules k hplain h => ?_⟩
  have hnone : validate_pattern (normalize_pattern p) = none := by
    have h2 := main (normalize_pattern p)
    rw [h] at h2
    cases hval : validate_pattern (normalize_pattern p) with
    | none => rfl
    | some e =>
      rw [hval] at h2
      simp at h2
  have hwf : regex_wf (normalize_pattern p) = true :=
    regex_wf_of_plain (normalize_pattern p) hplain
  rw [add_exclusion_rule]
  simp [hnone, hwf]

/-- C4, witness: `"logs/**"` normalizes to itself, violates none of the
four rules, and AddRule appends its compiled rule. -/
theorem c4_witness :
    add_exclusion_rule defaultRules ("logs/**".toList) MatchKind.wildcard
      = Except.ok (defaultRules
          ++ [⟨pattern_to_regex (normalize_pattern ("logs/**".toList)), MatchKind.wildcard⟩]) :=
  (c4_amended_validation_iff ("logs/**".toList)).2 defaultRules MatchKind.wildcard (by decide)
    (by decide)

/-- C5, counterexample: compiling `"a**b"` does not fail with the
segment-level more-than-one-`*` error. -/
theorem c5_counterexample :
    validate_pattern ("a**b".toList) ≠ some PatternError.multiStar := by
  decide

/-- C5, amended: `"a**b"` contains `**`, so validation takes the `**`
branch and fails with the `** must be at the end of the pattern` error
(and AddRule propagates exactly that error). -/
theorem c5_amended_not_at_end :
    validate_pattern ("a**b".toList) = some PatternError.doubleStarNotAtEnd
    ∧ add_exclusion_rule defaultRules ("a**b".toList) MatchKind.wildcard
        = Except.error (AddError.invalid PatternError.doubleStarNotAtEnd) := by
  exact ⟨rfl, rfl⟩

/-- C6: for patterns without `**` the compiled regex is `^body$`, so on
newline-free paths the wildcard search agrees with the exact full match
(the match must cover the whole path), and a full match forces the path to
contain exactly the separators written literally in the pattern — `*`
(compiled to `[^/]*`) never matches a `/`.  Concretely `"abc"` does not
match `"xabcx"`, and `"*.txt"` matches `"a.txt"` but not `"dir/a.txt"`. -/
theorem c6_anchored_no_double_star (p s : List Char)
    (hds : containsDoubleStar p = false) (_hplain : p.all plainChar = true)
    (hs : '\n' ∉ s) :
    (match_wildcard s (pattern_to_regex p) = match_exact s (pattern_to_regex p))
    ∧ (match_exact s (pattern_to_regex p) = true → s.count '/' = p.count '/')
    ∧ match_exact ("xabcx".toList) (pattern_to_regex ("abc".toList)) = false
    ∧ match_exact ("a.txt".toList) (pattern_to_regex ("*.txt".toList)) = true
    ∧ match_exact ("dir/a.txt".toList) (pattern_to_regex ("*.txt".toList)) = false := by
  refine ⟨?_, ?_, by decide, by decide, by decide⟩
  · have hw : match_wildcard s (pattern_to_regex p)
        = runTok (endSearch REnd.eos) (toTokens p) s := by
      rw [match_wildcard]
      simp [pattern_to_regex, hds]
    have he : match_exact s (pattern_to_regex p)
        = runTok (endFull REnd.eos) (toTokens p) s := by
      rw [match_exact]
      simp [pattern_to_regex, hds]
    rw [hw, he]
    apply runTok_congr
    intro t u hu
    have hnl : u ≠ ['\n'] := by
      intro h
      exact hs (hu ▸ List.mem_append_right t (h ▸ List.mem_cons_self _ _))
    simp [endSearch, endFull, hnl]
  · intro h
    have he : runTok (endFull REnd.eos) (toTokens p) s = true := by
      rw [match_exact] at h
      simpa [pattern_to_regex, hds] using h
    have := runTok_slash_count (toTokens p) (dotStar_not_mem_toTokens p)
      (endFull REnd.eos) (fun t ht => of_decide_eq_true ht) s he
    rw [this, litSlashes_toTokens]

/-- C6, witness: at `p = "*.txt"`, `s = "a.txt"` the search and the full
match agree. -/
theorem c6_witness :
    match_wildcard ("a.txt".toList) (pattern_to_regex ("*.txt".toList))
      = match_exact ("a.txt".toList) (pattern_to_regex ("*.txt".toList)) :=
  (c6_anchored_no_double_star ("*.txt".toList) ("a.txt".toList) (by decide) (by decide)
    (by decide)).1

/-- C7: `_should_exclude` returns true iff some rule of the list matches
the path under its kind's dispatch, and the boolean result is invariant
under permutation of the rule list. -/
theorem c7_or_of_rules (rules : List ExcludeRule) (s : List Char) :
    (should_exclude rules s = true
      ↔ ∃ r, r ∈ rules ∧ validate_method r.match_type s r.pattern = true)
    ∧ ∀ rules2, rules.Perm rules2 → should_exclude rules s = should_exclude rules2 s := by
  refine ⟨should_exclude_iff rules s, fun rules2 hperm => ?_⟩
  apply bool_eq_of_true_iff
  rw [should_exclude_iff, should_exclude_iff]
  constructor
  · rintro ⟨r, hr, hm⟩
    exact ⟨r, hperm.mem_iff.mp hr, hm⟩
  · rintro ⟨r, hr, hm⟩
    exact ⟨r, hperm.mem_iff.mpr hr, hm⟩

/-- C7, witness: swapping the two default rules leaves the result on
`".x"` unchanged. -/
theorem c7_witness :
    should_exclude defaultRules (".x".toList)
      = should_exclude [backupRule, dotfileRule] (".x".toList) :=
  (c7_or_of_rules defaultRules (".x".toList)).2 [backupRule, dotfileRule]
    (List.Perm.swap backupRule dotfileRule [])

/-- Rule list whose behavior differs from the defaults: the defaults plus
an exact rule for `"abc"` (what `add_exclusion_rule("abc", "exact")`
appends). -/
def rulesB : List ExcludeRule :=
  defaultRules ++ [⟨pattern_to_regex ("abc".toList), MatchKind.exact⟩]

/-- C8: the persistence pair is broken.  `_write_exclude_rules` opens the
store with append mode `"ab"`, so saving adds a pickle after the existing
ones, while `_read_exclude_rules` performs a single `pickle.load`, reading
the *first* pickle.  Hence with any non-empty prior store, Save followed
by Load returns the old collection — here Load yields `defaultRules`,
which disagrees with the saved `rulesB` on the path `"abc"` — and Load on
an empty or absent store raises instead of yielding the two built-in
default rules. -/
theorem c8_store_bug :
    (∀ (first : List ExcludeRule) (rest : List (List ExcludeRule)) (rules : List ExcludeRule),
        read_exclude_rules (write_exclude_rules (first :: rest) rules) = Except.ok first)
    ∧ (∀ rules : List ExcludeRule,
        read_exclude_rules (write_exclude_rules [] rules) = Except.ok rules)
    ∧ read_exclude_rules (write_exclude_rules [defaultRules] rulesB) = Except.ok defaultRules
    ∧ should_exclude defaultRules ("abc".toList) = false
    ∧ should_exclude rulesB ("abc".toList) = true
    ∧ read_exclude_rules [] = Except.error ReadError.emptyOrMissing := by
  exact ⟨fun first rest rules => rfl, fun rules => rfl, rfl, by decide, by decide, rfl⟩

/-- C9, counterexample: validation accepts the pattern `a(`, but the
generated regex `^a($` has an unclosed group, so `re.compile` raises
`re.error` — which is not the validator's `InvalidPatternError`
(`ValueError`): AddRule neither appends a rule nor raises
`InvalidPatternError` there. -/
theorem c9_counterexample :
    validate_pattern (normalize_pattern ("a(".toList)) = none
    ∧ regex_wf (normalize_pattern ("a(".toList)) = false
    ∧ add_exclusion_rule defaultRules ("a(".toList) MatchKind.wildcard
        = Except.error AddError.reError := by
  exact ⟨rfl, rfl, rfl⟩

/-- C9, amended: for every rule list, pattern and kind, AddRule either
appends exactly one compiled rule at the end of the unchanged existing
collection, or raises and returns no collection at all — the validator's
`InvalidPatternError` exactly when the normalized pattern violates a
validation rule, and otherwise `re.error` exactly when the generated
regex is malformed.  No rule is ever silently dropped or half-appended.
(Stated for patterns in the modelled `re` fragment: no brace character
and no `(?` group-extension sequence in the normalized pattern.) -/
theorem c9_amended_atomic (rules : List ExcludeRule) (p : List Char) (k : MatchKind)
    (_hbrace : '\x7b' ∉ normalize_pattern p)
    (_hpq : contains_paren_question (normalize_pattern p) = false) :
    (∃ e, add_exclusion_rule rules p k = Except.error (AddError.invalid e)
        ∧ validate_pattern (normalize_pattern p) = some e)
    ∨ (add_exclusion_rule rules p k = Except.error AddError.reError
        ∧ validate_pattern (normalize_pattern p) = none
        ∧ regex_wf (normalize_pattern p) = false)
    ∨ (add_exclusion_rule rules p k
          = Except.ok (rules ++ [⟨pattern_to_regex (normalize_pattern p), k⟩])
        ∧ validate_pattern (normalize_pattern p) = none
        ∧ regex_wf (normalize_pattern p) = true) := by
  rw [add_exclusion_rule]
  cases h : validate_pattern (normalize_pattern p) with
  | some e => exact Or.inl ⟨e, by simp [h], rfl⟩
  | none =>
    cases hwf : regex_wf (normalize_pattern p) with
    | false => exact Or.inr (Or.inl ⟨by simp [h, hwf], rfl, rfl⟩)
    | true => exact Or.inr (Or.inr ⟨by simp [h, hwf], rfl, rfl⟩)

/-- C9, witness: the amended trichotomy at the concrete pattern
`"logs/**"`. -/
theorem c9_witness :
    (∃ e, add_exclusion_rule defaultRules ("logs/**".toList) MatchKind.wildcard
        = Except.error (AddError.invalid e)
        ∧ validate_pattern (normalize_pattern ("logs/**".toList)) = some e)
    ∨ (add_exclusion_rule defaultRules ("logs/**".toList) MatchKind.wildcard
        = Except.error AddError.reError
        ∧ validate_pattern (normalize_pattern ("logs/**".toList)) = none
        ∧ regex_wf (normalize_pattern ("logs/**".toList)) = false)
    ∨ (add_exclusion_rule defaultRules ("logs/**".toList) MatchKind.wildcard
          = Except.ok (defaultRules
              ++ [⟨pattern_to_regex (normalize_pattern ("logs/**".toList)), MatchKind.wildcard⟩])
        ∧ validate_pattern (normalize_pattern ("logs/**".toList)) = none
        ∧ regex_wf (normalize_pattern ("logs/**".toList)) = true) :=
  c9_amended_atomic defaultRules ("logs/**".toList) MatchKind.wildcard (by decide) (by decide)

/-- C10: the built-in `backup` rule is compiled from the raw regex string
`backup/.*?` — unanchored, wildcard kind — so its search succeeds exactly
when `"backup/"` occurs as a substring of the path, wherever it occurs;
in particular the default engine excludes `"src/backup/x"` and
`"mybackup/x"`, while the path `"backup"` (no trailing slash) is not
matched by this rule. -/
theorem c10_backup_rule_substring :
    (∀ s : List Char, validate_method backupRule.match_type s backupRule.pattern = true
        ↔ ∃ t u, s = t ++ ("backup/".toList) ++ u)
    ∧ (∀ s : List Char, (∃ t u, s = t ++ ("backup/".toList) ++ u) →
        should_exclude defaultRules s = true)
    ∧ validate_method backupRule.match_type ("backup".toList) backupRule.pattern = false
    ∧ should_exclude defaultRules ("src/backup/x".toList) = true
    ∧ should_exclude defaultRules ("mybackup/x".toList) = true := by
  have hm : ∀ u, runTok (endSearch REnd.free) ((("backup/".toList).map Tok.lit)
      ++ [Tok.dotStar]) u = true ↔ ∃ v, u = ("backup/".toList) ++ v := by
    intro u
    rw [runTok_lits]
    constructor
    · rintro ⟨v, rfl, _⟩
      exact ⟨v, rfl⟩
    · rintro ⟨v, rfl⟩
      refine ⟨v, rfl, ?_⟩
      rw [runTok]
      exact runStar_of_next _ '\n' (fun t => rfl) v
  have key : ∀ s : List Char, validate_method backupRule.match_type s backupRule.pattern = true
      ↔ ∃ t u, s = t ++ ("backup/".toList) ++ u := by
    intro s
    have hrw : validate_method backupRule.match_type s backupRule.pattern
        = search_from (runTok (endSearch REnd.free)
            ((("backup/".toList).map Tok.lit) ++ [Tok.dotStar])) s := by
      show match_wildcard s backupRule.pattern = _
      rw [match_wildcard]
      rfl
    rw [hrw, search_from_ex]
    constructor
    · rintro ⟨t, u, rfl, hu⟩
      rcases (hm u).mp hu with ⟨v, rfl⟩
      exact ⟨t, v, by rw [List.append_assoc]⟩
    · rintro ⟨t, u, rfl⟩
      exact ⟨t, ("backup/".toList) ++ u, by rw [List.append_assoc], (hm _).mpr ⟨u, rfl⟩⟩
  refine ⟨key, fun s hsub => ?_, by decide, by decide, by decide⟩
  exact (should_exclude_iff defaultRules s).mpr
    ⟨backupRule, by simp [defaultRules], (key s).mpr hsub⟩

/-- C10, witness: a non-top-level occurrence of `"backup/"` is excluded by
the default engine. -/
theorem c10_witness : should_exclude defaultRules ("a/backup/b".toList) = true :=
  c10_backup_rule_substring.2.1 ("a/backup/b".toList) ⟨("a/".toList), ("b".toList), by decide⟩
